import Mathlib

/-!
Verification development for the orbit-direction-boundaries preprocessing tool
(`preprocessing/orbit_directions_boundaries.py`).

The development shallowly embeds the two core components of that module:

* the product registry (`ProductRegistry`): time ranges are triples
  `(start, stop, product)` over integer times, kept in a list sorted by start;
  `pushRange` models `ProductRegistry._push_range`, `selectRanges` models
  `ProductRegistry.select`, `extractRanges` models
  `ProductRegistry._extract_ranges` and `pushProduct` models
  `ProductRegistry.push`;

* the extremum accumulator (`ExtremaBase` with the geographic-latitude value
  provider `GeoLatitudeExtrema`): sample times and latitude values are
  rationals, the accumulator state is the three growing lists of appended
  arrays, and `lookup_extrema`, `find_extrema1`, `find_inversion_points`,
  `low_pass_filter`, `set_start`, `set_body`, `set_end` and `verify` model the
  functions of the same (or corresponding) names.

Python/numpy idioms are translated explicitly: `bisect_left`/`bisect_right`
on `(start,)` keys over the sorted range list become `takeWhile`/`dropWhile`
boundaries; Python slices with possibly negative indices become `pySlice`;
`numpy.concatenate`, which fails on an empty list of arrays, becomes the
`Except`-valued `concatenate`.
-/

namespace OrbitDir

/-! ## Flag constants (module-level constants of the source) -/

def FLAG_START : Int := 1

def FLAG_END : Int := -1

def FLAG_MIDDLE : Int := 0

def FLAG_ASCENDING : Int := 1

def FLAG_DESCENDING : Int := -1

def FLAG_UNDEFINED : Int := 0

/-- Models `FLAGS_ORBIT_DIRECTION[int(b)]` where
`FLAGS_ORBIT_DIRECTION = [FLAG_DESCENDING, FLAG_ASCENDING]`. -/
def flagsOrbitDirection (b : Bool) : Int :=
  if b then FLAG_ASCENDING else FLAG_DESCENDING

/-! ## Product registry -/

/-- A stored registry range `(start_time, end_time, product)`.  Times are
modelled as integers (the source uses `numpy.datetime64` values, which are
totally ordered integer timestamps); products as numeric identifiers. -/
structure PRange where
  start : Int
  stop : Int
  product : Nat
deriving DecidableEq

/-- Sort key of the registry list: ascending by range start. -/
def rangeLE (a b : PRange) : Prop := a.start ≤ b.start

instance (a b : PRange) : Decidable (rangeLE a b) :=
  inferInstanceAs (Decidable (a.start ≤ b.start))

/-- Two stored ranges overlap: the closed intervals `[a.start, a.stop]` and
`[b.start, b.stop]` intersect. -/
def overlaps (a b : PRange) : Prop := a.start ≤ b.stop ∧ b.start ≤ a.stop

instance (a b : PRange) : Decidable (overlaps a b) :=
  inferInstanceAs (Decidable (a.start ≤ b.stop ∧ b.start ≤ a.stop))

/-- Models `ProductRegistry._push_range(start, end, product)`.

The source computes `idx_before = bisect_left(ranges, (start,))`, then scans
`idx_after` forward from `idx_before` while `ranges[idx_after][0] < end`, and
replaces the slice `ranges[idx_before:idx_after]` by the new range (inserting
at `idx_before` when the slice is empty).

Python tuple comparison gives `(s, e, p) < (start,)` iff `s < start`, so on a
list sorted by start `bisect_left` returns the length of the maximal prefix
with `r.start < start`, i.e. the `takeWhile` boundary; the forward scan is
literally `dropWhile (r.start < end)` on the remaining suffix.  Both source
branches (splice and plain insert) produce the same list. -/
def pushRange (s e : Int) (p : Nat) (ranges : List PRange) : List PRange :=
  ranges.takeWhile (fun r => decide (r.start < s))
    ++ ⟨s, e, p⟩ :: (ranges.dropWhile (fun r => decide (r.start < s))).dropWhile
      (fun r => decide (r.start < e))

/-- Normalization of a Python slice index: negative indices count from the
end (clamped at 0), non-negative indices are clamped at the length. -/
def pyIndex (n : Nat) (i : Int) : Nat :=
  if i < 0 then ((n : Int) + i).toNat else min i.toNat n

/-- Python slice `l[i:j]` with (possibly negative) integer indices. -/
def pySlice (l : List α) (i j : Int) : List α :=
  (l.take (pyIndex l.length j)).drop (pyIndex l.length i)

/-- Models `ProductRegistry.select(start, end)`.

The source computes `idx_start = bisect_right(ranges, (start,)) - 1` and
`idx_end = bisect_right(ranges, (end,)) + 1` and filters
`ranges[idx_start:idx_end]` by `p_start <= end and p_end >= start`.  Since
`(start,)` never equals a stored 3-tuple, `bisect_right` coincides with
`bisect_left`, i.e. with the `takeWhile` boundary; note that `idx_start` can
be `-1`, in which case the Python slice wraps around to the last element. -/
def selectRanges (ranges : List PRange) (s e : Int) : List PRange :=
  let idx_start : Int :=
    ((ranges.takeWhile (fun r => decide (r.start < s))).length : Int) - 1
  let idx_end : Int :=
    ((ranges.takeWhile (fun r => decide (r.start < e))).length : Int) + 1
  (pySlice ranges idx_start idx_end).filter
    (fun r => decide (r.start ≤ e) && decide (s ≤ r.stop))

/-- Models `ProductRegistry._extract_ranges(product)` applied to the
product's timestamp array: an empty product yields no range, a single sample
yields the degenerate range `(t, t)`, and otherwise the samples are split at
every gap exceeding `gapThreshold` into maximal sub-runs, each yielding the
range of its first and last timestamp. -/
def extractRanges (gapThreshold : Int) (times : List Int) : List (Int × Int) :=
  if times.length < 1 then []
  else if times.length < 2 then [(times.getD 0 0, times.getD (times.length - 1) 0)]
  else
    let gap_index : List Nat :=
      0 :: ((((List.range (times.length - 1)).filter
        (fun i => decide (times.getD (i + 1) 0 - times.getD i 0 > gapThreshold))).map
          (fun i => i + 1)) ++ [times.length])
    (gap_index.zip gap_index.tail).map
      (fun q => (times.getD q.1 0, times.getD (q.2 - 1) 0))

/-- Models `ProductRegistry.push(product)`: extract the product's gap-free
sub-ranges and push each of them into the registry in order. -/
def pushProduct (gapThreshold : Int) (times : List Int) (p : Nat)
    (ranges : List PRange) : List PRange :=
  (extractRanges gapThreshold times).foldl (fun acc q => pushRange q.1 q.2 p acc) ranges

/-- Registry state after registering a sequence of products (each given by
its timestamp array and its identifier) into an initially empty registry. -/
def registryOfProducts (gapThreshold : Int) (prods : List (List Int × Nat)) :
    List PRange :=
  prods.foldl (fun acc q => pushProduct gapThreshold q.1 q.2 acc) []

/-! ## Extremum search -/

/-- Models `lookup_extrema(values)`: `non_descending = values[1:] - values[:-1] >= 0`;
the candidate indices are `1 + nonzero(non_descending[1:] != non_descending[:-1])`,
in ascending order. -/
def lookup_extrema (values : List ℚ) : List Nat :=
  let non_descending : List Bool :=
    (List.range (values.length - 1)).map
      (fun i => decide (values.getD (i + 1) 0 - values.getD i 0 ≥ 0))
  ((List.range (non_descending.length - 1)).filter
    (fun j => non_descending.getD (j + 1) false != non_descending.getD j false)).map
      (fun j => j + 1)

/-- Models `find_extrema(x, y, idx)` at one candidate index (the source is the
same arithmetic vectorized over the index array): the parabola-vertex
refinement `x0 + 0.5*(a1*a1b2 - a2*a2b1)/(a1b2 - a2b1)`. -/
def find_extrema1 (x y : List ℚ) (idx : Nat) : ℚ :=
  let x0 := x.getD (idx - 1) 0
  let a1 := x.getD idx 0 - x0
  let a2 := x.getD (idx + 1) 0 - x0
  let y0 := y.getD (idx - 1) 0
  let b1 := y.getD idx 0 - y0
  let b2 := y.getD (idx + 1) 0 - y0
  let a1b2 := a1 * b2
  let a2b1 := a2 * b1
  x0 + (1 / 2 : ℚ) * (a1 * a1b2 - a2 * a2b1) / (a1b2 - a2b1)

/-- Models `find_inversion_points(times, lats)`: the refined extremum times
together with `ascending_pass = lats[index] < 0`. -/
def find_inversion_points (times lats : List ℚ) : List ℚ × List Bool :=
  let index := lookup_extrema lats
  (index.map (find_extrema1 times lats), index.map (fun i => decide (lats.getD i 0 < 0)))

/-! ## Extremum accumulator -/

/-- Python error taxonomy relevant to `verify`: `DataIntegrityError` (a
`ValueError` subclass raised by the integrity checks) versus a plain
`ValueError` (raised e.g. by `numpy.concatenate` on an empty array list). -/
inductive PyError where
  | valueError : String → PyError
  | dataIntegrityError : String → PyError
deriving DecidableEq

/-- Models `numpy.concatenate`: fails on an empty list of arrays, otherwise
concatenates them. -/
def concatenate (ls : List (List α)) : Except PyError (List α) :=
  match ls with
  | [] => Except.error (PyError.valueError "need at least one array to concatenate")
  | ls => Except.ok ls.flatten

/-- Accumulator state of `ExtremaBase`: the three growing lists of appended
arrays (`times_list`, `type_flags_list`, `pass_flags_list`). -/
structure ExtremaAcc where
  times_list : List (List ℚ)
  type_flags_list : List (List Int)
  pass_flags_list : List (List Int)
deriving DecidableEq

/-- The pristine accumulator (state right after `__init__`). -/
def emptyAcc : ExtremaAcc := ⟨[], [], []⟩

/-- Models `ExtremaBase._push`: append one parallel array triple. -/
def ExtremaAcc.pushArrays (acc : ExtremaAcc) (times : List ℚ)
    (type_flags pass_flags : List Int) : ExtremaAcc :=
  ⟨acc.times_list ++ [times], acc.type_flags_list ++ [type_flags],
    acc.pass_flags_list ++ [pass_flags]⟩

/-- Models `ExtremaBase._set_body(times, values)`: find the inversion points
and append them as `MIDDLE` boundary points, direction
`FLAGS_ORBIT_DIRECTION[ascending_pass]`. -/
def ExtremaAcc.setBodyRaw (acc : ExtremaAcc) (times values : List ℚ) : ExtremaAcc :=
  let r := find_inversion_points times values
  acc.pushArrays r.1 (r.1.map (fun _ => FLAG_MIDDLE)) (r.2.map flagsOrbitDirection)

/-- Models `ExtremaBase.set_start` for the geographic-latitude value provider
(`get_values` returns the latitudes unchanged): seed a `START` point at the
first sample time, direction ascending iff `values[1] - values[0] >= 0`, then
process the unfiltered three-sample head. -/
def ExtremaAcc.set_start (acc : ExtremaAcc) (times lats : List ℚ) : ExtremaAcc :=
  let values := lats.take 3
  let is_ascending := decide (values.getD 1 0 - values.getD 0 0 ≥ 0)
  (acc.pushArrays [times.getD 0 0] [FLAG_START]
    [flagsOrbitDirection is_ascending]).setBodyRaw (times.take 3) values

/-- Python tail slice `l[-n:]` (whole list when shorter than `n`). -/
def takeLast (n : Nat) (l : List α) : List α := l.drop (l.length - n)

/-- Models `ExtremaBase.set_end` (geographic-latitude provider): process the
unfiltered three-sample tail, then append the `END` point at
`times[-1] + margin` with undefined direction.  `margin` is the `end_margin`
constructor argument of the source class. -/
def ExtremaAcc.set_end (margin : ℚ) (acc : ExtremaAcc) (times lats : List ℚ) :
    ExtremaAcc :=
  let values := takeLast 3 lats
  (acc.setBodyRaw (takeLast 3 times) values).pushArrays
    [times.getD (times.length - 1) 0 + margin] [FLAG_END] [FLAG_UNDEFINED]

/-- Models `ExtremaBase._low_pass_filter(times, values)`: drop one sample on
each side of the times, and replace each interior value by the mean of
itself and its two neighbours. -/
def low_pass_filter (times values : List ℚ) : List ℚ × List ℚ :=
  ((times.drop 1).dropLast,
    (List.range (values.length - 2)).map
      (fun i => (values.getD (i + 1) 0 + values.getD (i + 2) 0 + values.getD i 0)
        * (1 / 3 : ℚ)))

/-- Models `ExtremaBase.set_body` (geographic-latitude provider): smooth the
window with the low-pass filter, then run the extremum search on it. -/
def ExtremaAcc.set_body (acc : ExtremaAcc) (times lats : List ℚ) : ExtremaAcc :=
  let r := low_pass_filter times lats
  acc.setBodyRaw r.1 r.2

/-! ## The verify() checks -/

/-- Adjacent strict increase, models `(times[1:] > times[:-1]).all()`. -/
def strictIncB (times : List ℚ) : Bool :=
  (times.zip times.tail).all (fun q => decide (q.1 < q.2))

/-- The local `flags = type_flags[type_flags != FLAG_MIDDLE]` of `verify`. -/
def nonMiddleFlags (type_flags : List Int) : List Int :=
  type_flags.filter (fun f => f != FLAG_MIDDLE)

/-- Python slice `l[::2]` (every other element, starting at index 0). -/
def sliceStep2 : List α → List α
  | [] => []
  | [a] => [a]
  | a :: _ :: rest => a :: sliceStep2 rest

/-- Models `numpy.nonzero` applied to `l == v`: the ascending list of indices
holding value `v`. -/
def nonzeroIdx (l : List Int) (v : Int) : List Nat :=
  (List.range l.length).filter (fun i => l.getD i 0 == v)

/-- A block's direction flags fail `verify`'s per-block check: some flag is
`FLAG_UNDEFINED`, or two adjacent flags are equal
(`(flags == FLAG_UNDEFINED).any() or (flags[1:] == flags[:-1]).any()`). -/
def blockBadB (dirs : List Int) : Bool :=
  dirs.any (fun f => f == FLAG_UNDEFINED)
    || (dirs.zip dirs.tail).any (fun q => q.1 == q.2)

/-- The body of `ExtremaBase.verify` once the three arrays are materialized:
the four integrity checks, in source order, each raising
`DataIntegrityError` with the source's message. -/
def verifyChecks (times : List ℚ) (type_flags pass_flags : List Int) :
    Except PyError Unit :=
  if strictIncB times = false then
    Except.error (PyError.dataIntegrityError "Times are not strictly increasing!")
  else if ((sliceStep2 (nonMiddleFlags type_flags)).any (fun f => f != FLAG_START)
      || (sliceStep2 (nonMiddleFlags type_flags).tail).any (fun f => f != FLAG_END)
      || ((nonMiddleFlags type_flags).length % 2 != 0)) = true then
    Except.error (PyError.dataIntegrityError "Block flags mismatch!")
  else if (((nonzeroIdx type_flags FLAG_END).map (fun i => pass_flags.getD i 0)).any
      (fun f => f != FLAG_UNDEFINED)) = true then
    Except.error (PyError.dataIntegrityError "Orbit direction flags mismatch!")
  else if (((nonzeroIdx type_flags FLAG_START).zip (nonzeroIdx type_flags FLAG_END)).any
      (fun q => blockBadB ((pass_flags.take q.2).drop q.1))) = true then
    Except.error (PyError.dataIntegrityError "Orbit direction flags mismatch!")
  else Except.ok ()

/-- Models `ExtremaBase.verify()`: materialize the three concatenated arrays
(each concatenation fails with a plain `ValueError` when its list of arrays
is empty), then run the integrity checks. -/
def ExtremaAcc.verify (acc : ExtremaAcc) : Except PyError Unit := do
  let times ← concatenate acc.times_list
  let type_flags ← concatenate acc.type_flags_list
  let pass_flags ← concatenate acc.pass_flags_list
  verifyChecks times type_flags pass_flags

/-- All boundary points of an accumulator, as `(time, type, direction)`
triples in output order. -/
def boundaryPoints (acc : ExtremaAcc) : List (ℚ × Int × Int) :=
  acc.times_list.flatten.zip
    (acc.type_flags_list.flatten.zip acc.pass_flags_list.flatten)

/-- The `MIDDLE` boundary points of an accumulator, as `(time, direction)`
pairs in output order. -/
def middlePoints (acc : ExtremaAcc) : List (ℚ × Int) :=
  ((boundaryPoints acc).filter (fun q => q.2.1 == FLAG_MIDDLE)).map
    (fun q => (q.1, q.2.2))

/-! ## Specification-side predicates

These definitions follow the specification's words; the theorems below
compare them with the code-derived definitions above. -/

/-- Specification predicate for an extremum candidate: an interior index `i`
(`1 ≤ i ≤ n-2`) at which `d[i-1] != d[i]`, where `d[i] = (y[i+1] - y[i] >= 0)`. -/
def ExtremumCandidateSpec (y : List ℚ) (i : Nat) : Prop :=
  1 ≤ i ∧ i ≤ y.length - 2 ∧
    decide (y.getD i 0 - y.getD (i - 1) 0 ≥ 0)
      ≠ decide (y.getD (i + 1) 0 - y.getD i 0 ≥ 0)

instance (y : List ℚ) (i : Nat) : Decidable (ExtremumCandidateSpec y i) :=
  inferInstanceAs (Decidable (_ ∧ _ ∧ _))

/-- Specification formula for the refined extremum time:
`x[i-1] + 0.5 * (a1*(a1*b2) - a2*(a2*b1)) / (a1*b2 - a2*b1)` with
`a1 = x[i]-x[i-1]`, `a2 = x[i+1]-x[i-1]`, `b1 = y[i]-y[i-1]`,
`b2 = y[i+1]-y[i-1]`. -/
def refinedTimeSpec (x y : List ℚ) (i : Nat) : ℚ :=
  let a1 := x.getD i 0 - x.getD (i - 1) 0
  let a2 := x.getD (i + 1) 0 - x.getD (i - 1) 0
  let b1 := y.getD i 0 - y.getD (i - 1) 0
  let b2 := y.getD (i + 1) 0 - y.getD (i - 1) 0
  x.getD (i - 1) 0 + (1 / 2 : ℚ) * (a1 * (a1 * b2) - a2 * (a2 * b1)) / (a1 * b2 - a2 * b1)

/-- Timestamps of the output are strictly increasing (adjacent pairs). -/
def TimesSorted (times : List ℚ) : Prop :=
  ∀ i < times.length - 1, times.getD i 0 < times.getD (i + 1) 0

instance (times : List ℚ) : Decidable (TimesSorted times) :=
  Nat.decidableBallLT _ _

/-- The non-`MIDDLE` boundary markers alternate `START`, `END`, `START`,
`END`, ... and pair up one-to-one (even count). -/
def MarkersAlternate (type_flags : List Int) : Prop :=
  (∀ j < (nonMiddleFlags type_flags).length,
    (j % 2 = 0 → (nonMiddleFlags type_flags).getD j 0 = FLAG_START)
      ∧ (j % 2 = 1 → (nonMiddleFlags type_flags).getD j 0 = FLAG_END))
    ∧ (nonMiddleFlags type_flags).length % 2 = 0

instance (type_flags : List Int) : Decidable (MarkersAlternate type_flags) := by
  unfold MarkersAlternate; infer_instance

/-- Every `END` marker carries the `UNDEFINED` orbit direction. -/
def EndsUndefined (type_flags pass_flags : List Int) : Prop :=
  ∀ i < type_flags.length,
    type_flags.getD i 0 = FLAG_END → pass_flags.getD i 0 = FLAG_UNDEFINED

instance (type_flags pass_flags : List Int) :
    Decidable (EndsUndefined type_flags pass_flags) :=
  Nat.decidableBallLT _ _

/-- Within each block — the `q`-th `START` marker position paired with the
`q`-th `END` marker position — every point from the `START` marker up to
(and excluding) the `END` marker has a defined direction, and consecutive
directions (the `START` marker's seeded direction included) differ. -/
def BlocksAlternate (type_flags pass_flags : List Int) : Prop :=
  ∀ q ∈ (nonzeroIdx type_flags FLAG_START).zip (nonzeroIdx type_flags FLAG_END),
    ∀ i < q.2, q.1 ≤ i →
      pass_flags.getD i 0 ≠ FLAG_UNDEFINED
        ∧ (i + 1 < q.2 → pass_flags.getD (i + 1) 0 ≠ pass_flags.getD i 0)

instance (type_flags pass_flags : List Int) :
    Decidable (BlocksAlternate type_flags pass_flags) := by
  unfold BlocksAlternate; infer_instance

/-- What `verify` actually enforces on the materialized output arrays. -/
def VerifySpec (times : List ℚ) (type_flags pass_flags : List Int) : Prop :=
  TimesSorted times ∧ MarkersAlternate type_flags
    ∧ EndsUndefined type_flags pass_flags
    ∧ BlocksAlternate type_flags pass_flags

/-- The invariants as listed by the specification's data model: strictly
increasing timestamps; alternating, one-to-one paired `START`/`END` markers;
direction `UNDEFINED` exactly on `END` points; and no two consecutive
`MIDDLE` points with equal direction. -/
def ClaimedInvariants (acc : ExtremaAcc) : Prop :=
  TimesSorted acc.times_list.flatten
    ∧ MarkersAlternate acc.type_flags_list.flatten
    ∧ (∀ i < acc.type_flags_list.flatten.length,
        (acc.pass_flags_list.flatten.getD i 0 = FLAG_UNDEFINED
          ↔ acc.type_flags_list.flatten.getD i 0 = FLAG_END))
    ∧ (∀ i < acc.type_flags_list.flatten.length - 1,
        acc.type_flags_list.flatten.getD i 0 = FLAG_MIDDLE →
        acc.type_flags_list.flatten.getD (i + 1) 0 = FLAG_MIDDLE →
        acc.pass_flags_list.flatten.getD i 0 ≠ acc.pass_flags_list.flatten.getD (i + 1) 0)

instance (acc : ExtremaAcc) : Decidable (ClaimedInvariants acc) := by
  unfold ClaimedInvariants; infer_instance

/-! ## Concrete scenario A of the specification -/

/-- Scenario A sample times `t = [0,1,2,3,4,5,6,7]` (seconds). -/
def scnTimes : List ℚ := [0, 1, 2, 3, 4, 5, 6, 7]

/-- Scenario A latitude series `[10, 30, 20, -10, -30, -15, 5, 25]`. -/
def scnLats : List ℚ := [10, 30, 20, -10, -30, -15, 5, 25]

/-- Scenario A processed as one block with a one-second sampling margin:
`set_start`, then `set_body` on the full series, then `set_end`. -/
def scnAcc : ExtremaAcc :=
  ((emptyAcc.set_start scnTimes scnLats).set_body scnTimes scnLats).set_end 1
    scnTimes scnLats

/-! ## Helper lemmas -/

theorem flagsOrbitDirection_decide (p : Prop) [Decidable p] :
    flagsOrbitDirection (decide p) = if p then FLAG_ASCENDING else FLAG_DESCENDING := by
  by_cases h : p <;> simp [flagsOrbitDirection, h]

theorem getD_map_range (f : Nat → α) (m j : Nat) (d : α) :
    ((List.range m).map f).getD j d = if j < m then f j else d := by
  by_cases h : j < m
  · have hlen : j < ((List.range m).map f).length := by simpa using h
    rw [List.getD_eq_getElem _ _ hlen, if_pos h]
    simp
  · rw [List.getD_eq_default, if_neg h]
    simpa using Nat.le_of_not_lt h

/-! ## C9: pushing an empty product is a soft no-op -/

/-- C9: a product with zero samples contributes no range: `_extract_ranges`
yields nothing, so `push` leaves the registry unchanged and signals no error
to the caller. -/
theorem push_empty_product_noop (gapThreshold : Int) (p : Nat)
    (ranges : List PRange) :
    pushProduct gapThreshold [] p ranges = ranges
      ∧ extractRanges gapThreshold [] = [] :=
  ⟨rfl, rfl⟩

/-! ## C10: verify on a never-touched accumulator -/

/-- C10: calling `verify` on an accumulator that never saw a lifecycle call
fails while materializing `times` — `numpy.concatenate` of the empty array
list raises a plain `ValueError`, not a `DataIntegrityError` — so an empty
run cannot produce a validated empty output. -/
theorem verify_empty_accumulator_value_error :
    ExtremaAcc.verify emptyAcc
      = Except.error (PyError.valueError "need at least one array to concatenate") :=
  rfl

/-! ## C6: concrete scenario A -/

/-- C6: the latitude series `[10,30,20,-10,-30,-15,5,25]` at `t = 0..7`
processed as one block yields exactly two `MIDDLE` points: one at
`t = 7/6` (within one sample period of `t = 1`) with direction `DESCENDING`,
and one at `t = 21/5` (within one sample period of `t = 4`) with direction
`ASCENDING`. -/
theorem scenarioA_middle_points :
    middlePoints scnAcc = [(7 / 6, FLAG_DESCENDING), (21 / 5, FLAG_ASCENDING)]
      ∧ (7 / 6 : ℚ) - 1 ≤ 1 ∧ 1 - (7 / 6 : ℚ) ≤ 1
      ∧ (21 / 5 : ℚ) - 4 ≤ 1 ∧ 4 - (21 / 5 : ℚ) ≤ 1 := by
  refine ⟨?_, by norm_num, by norm_num, by norm_num, by norm_num⟩
  norm_num [middlePoints, scnAcc, scnTimes, scnLats, boundaryPoints, emptyAcc,
    ExtremaAcc.set_start, ExtremaAcc.set_body, ExtremaAcc.set_end, ExtremaAcc.setBodyRaw,
    ExtremaAcc.pushArrays, low_pass_filter, find_inversion_points, lookup_extrema,
    find_extrema1, takeLast, flagsOrbitDirection, List.range_succ,
    FLAG_MIDDLE, FLAG_START, FLAG_END, FLAG_ASCENDING, FLAG_DESCENDING, FLAG_UNDEFINED]

/-! ## C1 (counterexample part): the registry can hold overlapping ranges -/

/-- Counterexample to C1: registering a product covering `[0, 10]` and then a
product covering `[5, 8]` leaves both ranges stored — `_push_range` only
removes stored ranges whose start lies in `[start, end)`, so the earlier
range, which the new one overlaps from inside, is retained and the registry
holds two overlapping ranges after the second `push` returns. -/
theorem registry_nonoverlap_counterexample :
    registryOfProducts 100 [([0, 10], 0), ([5, 8], 1)]
        = [⟨0, 10, 0⟩, ⟨5, 8, 1⟩]
      ∧ overlaps ⟨0, 10, 0⟩ ⟨5, 8, 1⟩ := by
  constructor
  · decide
  · exact ⟨by decide, by decide⟩

/-! ## C2 (counterexample part): overlapped ranges are not all removed -/

/-- Counterexample to C2: pushing `(5, 8)` onto a registry holding `(0, 10)`
does not remove the stored range although it intersects `[5, 8]`; the
earlier range still appears in `select` results over the overlapped region,
so last-registered-wins fails. -/
theorem pushRange_keeps_left_overlap_counterexample :
    (⟨0, 10, 0⟩ : PRange) ∈ pushRange 5 8 1 (pushRange 0 10 0 [])
      ∧ overlaps ⟨0, 10, 0⟩ ⟨5, 8, 1⟩
      ∧ (⟨0, 10, 0⟩ : PRange) ∈ selectRanges (pushRange 5 8 1 (pushRange 0 10 0 [])) 5 8 := by
  refine ⟨by decide, ⟨by decide, by decide⟩, by decide⟩

/-! ## C8: select misses stored intersecting ranges -/

/-- C8: evaluation of `select` at the failing input.  On the registry built
from three disjoint products covering `[0,1]`, `[2,3]`, `[4,5]`, the query
`select(-1, 10)` returns only the last stored range, although all three
stored ranges satisfy `r.start ≤ 10 ∧ -1 ≤ r.stop`: `bisect_right - 1`
evaluates to `-1` when the query start precedes every stored start, and the
Python slice `ranges[-1:...]` silently wraps around to the last element. -/
theorem select_misses_stored_overlap :
    selectRanges (registryOfProducts 100 [([0, 1], 0), ([2, 3], 1), ([4, 5], 2)]) (-1) 10
        = [⟨4, 5, 2⟩]
      ∧ (⟨0, 1, 0⟩ : PRange) ∈ registryOfProducts 100 [([0, 1], 0), ([2, 3], 1), ([4, 5], 2)]
      ∧ (⟨0, 1, 0⟩ : PRange).start ≤ 10 ∧ (-1 : Int) ≤ (⟨0, 1, 0⟩ : PRange).stop := by
  refine ⟨by decide, by decide, by decide, by decide⟩

/-! ## C5 (counterexample part) -/

/-- Counterexample to C5: the sequence `START`(dir `ASCENDING`),
`MIDDLE`(`ASCENDING`), `MIDDLE`(`DESCENDING`), `END`(`UNDEFINED`) at times
`0,1,2,3` satisfies every invariant listed by the claim — strictly
increasing times, paired alternating markers, `UNDEFINED` exactly on the
`END` point, consecutive `MIDDLE` directions differing — yet `verify`
raises `DataIntegrityError`, because its per-block alternation check spans
the `START` marker's seeded direction together with the `MIDDLE` points,
and here the seeded direction equals the first `MIDDLE` direction. -/
theorem verify_claim_counterexample :
    ClaimedInvariants ⟨[[0], [1], [2], [3]], [[1], [0], [0], [-1]], [[1], [1], [-1], [0]]⟩
      ∧ ExtremaAcc.verify ⟨[[0], [1], [2], [3]], [[1], [0], [0], [-1]], [[1], [1], [-1], [0]]⟩
          = Except.error (PyError.dataIntegrityError "Orbit direction flags mismatch!") := by
  exact ⟨by decide, rfl⟩

/-! ## C4: direction of a MIDDLE point comes from the value's sign -/

/-- C4: for every window handed to `_set_body`, the appended points are all
`MIDDLE` points and each one's orbit direction is `ASCENDING` exactly when
the processed value at its extremum index is negative, `DESCENDING`
otherwise — the direction is keyed off the sign of the value at the
extremum, never off the direction of the slope flip. -/
theorem middle_direction_from_value_sign (acc : ExtremaAcc) (times values : List ℚ) :
    (acc.setBodyRaw times values).pass_flags_list
        = acc.pass_flags_list ++ [(lookup_extrema values).map
            (fun i => if values.getD i 0 < 0 then FLAG_ASCENDING else FLAG_DESCENDING)]
      ∧ (acc.setBodyRaw times values).type_flags_list
        = acc.type_flags_list ++ [(lookup_extrema values).map (fun _ => FLAG_MIDDLE)] := by
  unfold ExtremaAcc.setBodyRaw find_inversion_points ExtremaAcc.pushArrays
  constructor <;>
    simp [List.map_map, Function.comp_def, flagsOrbitDirection_decide]

theorem getD_take_of_lt (l : List α) (n i : Nat) (d : α) (h : i < n) :
    (l.take n).getD i d = l.getD i d := by
  induction l generalizing n i with
  | nil => simp
  | cons a t ih =>
    cases n with
    | zero => omega
    | succ n =>
      cases i with
      | zero => simp
      | succ i => simpa using ih n i (by omega)

/-! ## C3: the extremum search against the specification formulas -/

/-- C3: for a series `y` sampled at strictly increasing times `x` with at
least 3 samples, `lookup_extrema` reports exactly the interior indices `i`
(`1 ≤ i ≤ n-2`) at which the non-descending flag flips, in ascending index
order, and the refined extremum time
equals the specification's closed-form parabola-vertex formula. -/
theorem lookup_and_refine_match_spec (x y : List ℚ) (h3 : 3 ≤ y.length)
    (hlen : x.length = y.length) (hx : List.Chain' (fun a b => a < b) x) :
    (∀ i, i ∈ lookup_extrema y ↔ ExtremumCandidateSpec y i)
      ∧ List.Pairwise (fun a b => a < b) (lookup_extrema y)
      ∧ ∀ i ∈ lookup_extrema y, find_extrema1 x y i = refinedTimeSpec x y i := by
  refine ⟨?_, ?_, fun i _ => rfl⟩
  · intro i
    unfold lookup_extrema ExtremumCandidateSpec
    simp only [List.mem_map, List.mem_filter, List.mem_range, List.length_map,
      List.length_range]
    constructor
    · rintro ⟨j, ⟨hj, hp⟩, rfl⟩
      have h1 : j < y.length - 1 := by omega
      have h2 : j + 1 < y.length - 1 := by omega
      rw [getD_map_range, getD_map_range, if_pos h2, if_pos h1, bne_iff_ne] at hp
      refine ⟨by omega, by omega, ?_⟩
      simpa using hp.symm
    · rintro ⟨h1, h2, hne⟩
      refine ⟨i - 1, ⟨by omega, ?_⟩, by omega⟩
      have hb1 : i - 1 < y.length - 1 := by omega
      have hb2 : i - 1 + 1 < y.length - 1 := by omega
      rw [getD_map_range, getD_map_range, if_pos hb2, if_pos hb1, bne_iff_ne]
      have hi : i - 1 + 1 = i := by omega
      rw [hi]
      exact fun hh => hne hh.symm
  · unfold lookup_extrema
    exact List.Pairwise.map _ (fun a b hab => by omega)
      (List.Pairwise.filter _ (List.pairwise_lt_range _))

/-- Witness for C3 at the series `y = [0, 2, 1, 3]`, `x = [0, 1, 2, 3]`. -/
theorem lookup_and_refine_match_spec_witness :
    (3 ≤ ([0, 2, 1, 3] : List ℚ).length
        ∧ ([0, 1, 2, 3] : List ℚ).length = ([0, 2, 1, 3] : List ℚ).length
        ∧ List.Chain' (fun a b => a < b) ([0, 1, 2, 3] : List ℚ))
      ∧ ((∀ i, i ∈ lookup_extrema [0, 2, 1, 3] ↔ ExtremumCandidateSpec [0, 2, 1, 3] i)
        ∧ List.Pairwise (fun a b => a < b) (lookup_extrema [0, 2, 1, 3])
        ∧ ∀ i ∈ lookup_extrema [0, 2, 1, 3],
            find_extrema1 [0, 1, 2, 3] [0, 2, 1, 3] i
              = refinedTimeSpec [0, 1, 2, 3] [0, 2, 1, 3] i) :=
  ⟨⟨by decide, by decide, by norm_num [List.chain'_cons]⟩,
    lookup_and_refine_match_spec [0, 1, 2, 3] [0, 2, 1, 3] (by decide) (by decide)
      (by norm_num [List.chain'_cons])⟩

/-! ## C7: set_start and set_end -/

/-- C7: on a window of at least 3 samples, `set_start` appends exactly one
`START` point at the first sample's timestamp, direction `ASCENDING` iff
`value[1] - value[0] >= 0`, then runs the body algorithm unfiltered on the
first 3 samples; `set_end` runs the body algorithm unfiltered on the last 3
samples and then appends exactly one `END` point at
`last_sample_time + margin` with direction `UNDEFINED`, which for positive
margin strictly follows the last real sample. -/
theorem set_start_set_end_spec (acc : ExtremaAcc) (times lats : List ℚ) (margin : ℚ)
    (h3 : 3 ≤ times.length) (hlen : lats.length = times.length) (hm : 0 < margin) :
    acc.set_start times lats
        = (acc.pushArrays [times.getD 0 0] [FLAG_START]
            [if lats.getD 1 0 - lats.getD 0 0 ≥ 0 then FLAG_ASCENDING
              else FLAG_DESCENDING]).setBodyRaw (times.take 3) (lats.take 3)
      ∧ ExtremaAcc.set_end margin acc times lats
        = (acc.setBodyRaw (takeLast 3 times) (takeLast 3 lats)).pushArrays
            [times.getD (times.length - 1) 0 + margin] [FLAG_END] [FLAG_UNDEFINED]
      ∧ times.getD (times.length - 1) 0 < times.getD (times.length - 1) 0 + margin := by
  refine ⟨?_, rfl, by linarith⟩
  show (acc.pushArrays [times.getD 0 0] [FLAG_START]
      [flagsOrbitDirection
        (decide ((lats.take 3).getD 1 0 - (lats.take 3).getD 0 0 ≥ 0))]).setBodyRaw
      (times.take 3) (lats.take 3) = _
  rw [getD_take_of_lt _ _ _ _ (by omega), getD_take_of_lt _ _ _ _ (by omega),
    flagsOrbitDirection_decide]

/-- Witness for C7 on the window `times = [0, 1, 2]`, `lats = [5, 6, 7]`,
margin 1, starting from the pristine accumulator. -/
theorem set_start_set_end_spec_witness :
    (3 ≤ ([0, 1, 2] : List ℚ).length
        ∧ ([5, 6, 7] : List ℚ).length = ([0, 1, 2] : List ℚ).length
        ∧ (0 : ℚ) < 1)
      ∧ (emptyAcc.set_start [0, 1, 2] [5, 6, 7]
          = (emptyAcc.pushArrays [([0, 1, 2] : List ℚ).getD 0 0] [FLAG_START]
              [if ([5, 6, 7] : List ℚ).getD 1 0 - ([5, 6, 7] : List ℚ).getD 0 0 ≥ 0 then
                FLAG_ASCENDING
              else FLAG_DESCENDING]).setBodyRaw (([0, 1, 2] : List ℚ).take 3)
              (([5, 6, 7] : List ℚ).take 3)
        ∧ ExtremaAcc.set_end 1 emptyAcc [0, 1, 2] [5, 6, 7]
          = (emptyAcc.setBodyRaw (takeLast 3 ([0, 1, 2] : List ℚ))
              (takeLast 3 ([5, 6, 7] : List ℚ))).pushArrays
              [([0, 1, 2] : List ℚ).getD (([0, 1, 2] : List ℚ).length - 1) 0 + 1]
              [FLAG_END] [FLAG_UNDEFINED]
        ∧ ([0, 1, 2] : List ℚ).getD (([0, 1, 2] : List ℚ).length - 1) 0
            < ([0, 1, 2] : List ℚ).getD (([0, 1, 2] : List ℚ).length - 1) 0 + 1) :=
  ⟨⟨by decide, by decide, by norm_num⟩,
    set_start_set_end_spec emptyAcc [0, 1, 2] [5, 6, 7] 1 (by decide) (by decide)
      (by norm_num)⟩

/-! ## C1 (amended part): the registry stays sorted by start -/

theorem mem_pushRange {s e : Int} {p : Nat} {l : List PRange} {x : PRange}
    (hx : x ∈ pushRange s e p l) : x = ⟨s, e, p⟩ ∨ x ∈ l := by
  unfold pushRange at hx
  rcases List.mem_append.mp hx with h | h
  · exact Or.inr ((List.takeWhile_sublist _).subset h)
  · rcases List.mem_cons.mp h with h | h
    · exact Or.inl h
    · exact Or.inr ((List.dropWhile_sublist _).subset
        ((List.dropWhile_sublist _).subset h))

theorem sorted_pushRange (s e : Int) (p : Nat) {l : List PRange}
    (h : List.Sorted rangeLE l) : List.Sorted rangeLE (pushRange s e p l) := by
  induction l with
  | nil =>
    simp only [pushRange, List.takeWhile_nil, List.dropWhile_nil, List.nil_append]
    exact List.sorted_singleton _
  | cons a t ih =>
    rw [List.sorted_cons] at h
    by_cases ha : a.start < s
    · have ht : pushRange s e p (a :: t) = a :: pushRange s e p t := by
        simp [pushRange, ha]
      rw [ht, List.sorted_cons]
      refine ⟨fun b hb => ?_, ih h.2⟩
      rcases mem_pushRange hb with rfl | hb
      · exact le_of_lt ha
      · exact h.1 b hb
    · have hd : (a :: t).takeWhile (fun r => decide (r.start < s)) = [] := by
        simp [ha]
      have hd2 : (a :: t).dropWhile (fun r => decide (r.start < s)) = a :: t := by
        simp [ha]
      rw [pushRange, hd, hd2, List.nil_append, List.sorted_cons]
      constructor
      · intro b hb
        have hb' : b ∈ a :: t := (List.dropWhile_sublist _).subset hb
        have hs' : s ≤ a.start := le_of_not_lt ha
        rcases List.mem_cons.mp hb' with rfl | hb''
        · exact hs'
        · exact le_trans hs' (h.1 b hb'')
      · exact List.Pairwise.sublist (List.dropWhile_sublist _)
          (List.sorted_cons.mpr h)

theorem sorted_pushProduct (gapThreshold : Int) (ts : List Int) (pid : Nat)
    {l : List PRange} (h : List.Sorted rangeLE l) :
    List.Sorted rangeLE (pushProduct gapThreshold ts pid l) := by
  unfold pushProduct
  generalize extractRanges gapThreshold ts = rs
  induction rs generalizing l with
  | nil => exact h
  | cons r rs ih => exact ih (sorted_pushRange _ _ _ h)

/-- C1 (amended): after any sequence of product registrations into an
initially empty registry, the stored ranges are sorted ascending
(non-strictly) by start time.  (Pairwise non-overlap, the other half of the
original claim, fails; see the counterexample.) -/
theorem registry_sorted_after_pushes (gapThreshold : Int)
    (prods : List (List Int × Nat)) :
    List.Sorted rangeLE (registryOfProducts gapThreshold prods) := by
  unfold registryOfProducts
  have h : ∀ (ps : List (List Int × Nat)) (acc : List PRange),
      List.Sorted rangeLE acc →
      List.Sorted rangeLE
        (ps.foldl (fun acc q => pushProduct gapThreshold q.1 q.2 acc) acc) := by
    intro ps
    induction ps with
    | nil => exact fun acc h => h
    | cons q ps ih => exact fun acc h => ih _ (sorted_pushProduct _ _ _ h)
  exact h prods [] List.sorted_nil

/-! ## C2 (amended part): exactly the ranges starting in `[s, e)` are removed -/

theorem mem_takeWhile_start_lt {c : Int} {l : List PRange}
    (hs : List.Sorted rangeLE l) (x : PRange) :
    x ∈ l.takeWhile (fun r => decide (r.start < c)) ↔ x ∈ l ∧ x.start < c := by
  induction l with
  | nil => simp
  | cons a t ih =>
    rw [List.sorted_cons] at hs
    by_cases ha : a.start < c
    · rw [List.takeWhile_cons_of_pos (by simpa using ha)]
      simp only [List.mem_cons, ih hs.2]
      constructor
      · rintro (rfl | ⟨hm, hlt⟩)
        exacts [⟨Or.inl rfl, ha⟩, ⟨Or.inr hm, hlt⟩]
      · rintro ⟨rfl | hm, hlt⟩
        exacts [Or.inl rfl, Or.inr ⟨hm, hlt⟩]
    · rw [List.takeWhile_cons_of_neg (by simpa using ha)]
      simp only [List.not_mem_nil, false_iff]
      rintro ⟨hm, hlt⟩
      rcases List.mem_cons.mp hm with rfl | hm
      · exact ha hlt
      · exact ha (lt_of_le_of_lt (hs.1 x hm) hlt)

theorem mem_dropWhile_start_lt {c : Int} {l : List PRange}
    (hs : List.Sorted rangeLE l) (x : PRange) :
    x ∈ l.dropWhile (fun r => decide (r.start < c)) ↔ x ∈ l ∧ c ≤ x.start := by
  induction l with
  | nil => simp
  | cons a t ih =>
    rw [List.sorted_cons] at hs
    by_cases ha : a.start < c
    · rw [List.dropWhile_cons_of_pos (by simpa using ha)]
      rw [ih hs.2]
      simp only [List.mem_cons]
      constructor
      · rintro ⟨hm, hge⟩
        exact ⟨Or.inr hm, hge⟩
      · rintro ⟨rfl | hm, hge⟩
        · exact absurd ha (not_lt.mpr hge)
        · exact ⟨hm, hge⟩
    · rw [List.dropWhile_cons_of_neg (by simpa using ha)]
      simp only [List.mem_cons]
      constructor
      · rintro (rfl | hm)
        · exact ⟨Or.inl rfl, le_of_not_lt ha⟩
        · exact ⟨Or.inr hm, le_trans (le_of_not_lt ha) (hs.1 x hm)⟩
      · rintro ⟨hm, _⟩
        exact hm

/-- C2 (amended): on a registry sorted by start, `_push_range(s, e, p)`
removes exactly the stored ranges whose start lies in `[s, e)` and inserts
the new range; every other stored range — in particular one overlapping
`[s, e]` from the left — is retained. -/
theorem pushRange_membership (s e : Int) (p : Nat) (l : List PRange)
    (hs : List.Sorted rangeLE l) (hse : s ≤ e) (x : PRange) :
    x ∈ pushRange s e p l
      ↔ x = ⟨s, e, p⟩ ∨ (x ∈ l ∧ (x.start < s ∨ e ≤ x.start)) := by
  unfold pushRange
  simp only [List.mem_append, List.mem_cons]
  have hdw : List.Sorted rangeLE (l.dropWhile (fun r => decide (r.start < s))) :=
    List.Pairwise.sublist (List.dropWhile_sublist _) hs
  rw [mem_takeWhile_start_lt hs, mem_dropWhile_start_lt hdw,
    mem_dropWhile_start_lt hs]
  constructor
  · rintro (⟨hm, hlt⟩ | rfl | ⟨⟨hm, _⟩, hge⟩)
    exacts [Or.inr ⟨hm, Or.inl hlt⟩, Or.inl rfl, Or.inr ⟨hm, Or.inr hge⟩]
  · rintro (rfl | ⟨hm, hlt | hge⟩)
    exacts [Or.inr (Or.inl rfl), Or.inl ⟨hm, hlt⟩,
      Or.inr (Or.inr ⟨⟨hm, le_trans hse hge⟩, hge⟩)]

/-- Witness for C2 (amended) on the registry `[(0, 3, 0)]` with the pushed
range `(4, 5)`. -/
theorem pushRange_membership_witness :
    (List.Sorted rangeLE [⟨0, 3, 0⟩] ∧ (4 : Int) ≤ 5)
      ∧ ∀ x, x ∈ pushRange 4 5 1 [⟨0, 3, 0⟩]
          ↔ x = ⟨4, 5, 1⟩ ∨ (x ∈ [(⟨0, 3, 0⟩ : PRange)] ∧ (x.start < 4 ∨ 5 ≤ x.start)) :=
  ⟨⟨List.sorted_singleton _, by decide⟩,
    fun x => pushRange_membership 4 5 1 [⟨0, 3, 0⟩] (List.sorted_singleton _)
      (by decide) x⟩

/-! ## C5 (amended part): what verify enforces, exactly -/

theorem getD_tail (l : List α) (i : Nat) (d : α) :
    l.tail.getD i d = l.getD (i + 1) d := by
  cases l <;> simp

theorem getD_drop (l : List α) (n i : Nat) (d : α) :
    (l.drop n).getD i d = l.getD (n + i) d := by
  induction l generalizing n with
  | nil => simp
  | cons a t ih =>
    cases n with
    | zero => simp
    | succ n => simpa [Nat.succ_add] using ih n

theorem sliceStep2_getD : ∀ (l : List α) (j : Nat) (d : α),
    (sliceStep2 l).getD j d = l.getD (2 * j) d
  | [], j, d => by simp [sliceStep2]
  | [a], j, d => by
    cases j with
    | zero => rfl
    | succ n =>
      show ([a] : List α).getD (n + 1) d = ([a] : List α).getD (2 * (n + 1)) d
      have h2 : 2 * (n + 1) = 2 * n + 1 + 1 := by omega
      rw [h2]
      simp
  | a :: b :: rest, j, d => by
    cases j with
    | zero => rfl
    | succ n =>
      have ih := sliceStep2_getD rest n d
      show (a :: sliceStep2 rest).getD (n + 1) d = (a :: b :: rest).getD (2 * (n + 1)) d
      have h2 : 2 * (n + 1) = 2 * n + 1 + 1 := by omega
      rw [h2, List.getD_cons_succ, List.getD_cons_succ, List.getD_cons_succ, ih]

theorem sliceStep2_length : ∀ (l : List α),
    (sliceStep2 l).length = (l.length + 1) / 2
  | [] => by simp [sliceStep2]
  | [a] => by simp [sliceStep2]
  | a :: b :: rest => by
    have ih := sliceStep2_length rest
    show (a :: sliceStep2 rest).length = ((a :: b :: rest).length + 1) / 2
    simp only [List.length_cons, ih]
    omega

theorem all_getD_iff (p : α → Bool) (d : α) :
    ∀ (l : List α), l.all p = true ↔ ∀ j < l.length, p (l.getD j d) = true
  | [] => by simp
  | a :: t => by
    rw [List.all_cons, Bool.and_eq_true, all_getD_iff p d t]
    constructor
    · rintro ⟨h1, h2⟩ j hj
      cases j with
      | zero => simpa using h1
      | succ j =>
        rw [List.getD_cons_succ]
        exact h2 j (by simpa using hj)
    · intro h
      refine ⟨by simpa using h 0 (by simp), fun j hj => ?_⟩
      simpa using h (j + 1) (by simpa using Nat.succ_lt_succ hj)

theorem any_getD_iff (p : α → Bool) (d : α) :
    ∀ (l : List α), l.any p = true ↔ ∃ j, j < l.length ∧ p (l.getD j d) = true
  | [] => by simp
  | a :: t => by
    rw [List.any_cons, Bool.or_eq_true, any_getD_iff p d t]
    constructor
    · rintro (h | ⟨j, hj, hp⟩)
      · exact ⟨0, by simp, by simpa using h⟩
      · exact ⟨j + 1, by simpa using Nat.succ_lt_succ hj, by simpa using hp⟩
    · rintro ⟨j, hj, hp⟩
      cases j with
      | zero => exact Or.inl (by simpa using hp)
      | succ j => exact Or.inr ⟨j, by simpa using hj, by simpa using hp⟩

theorem adjacent_allB (p : α → α → Bool) (d : α) :
    ∀ (l : List α), ((l.zip l.tail).all fun q => p q.1 q.2) = true ↔
      ∀ j, j + 1 < l.length → p (l.getD j d) (l.getD (j + 1) d) = true
  | [] => by simp
  | [a] => by simp
  | a :: b :: t => by
    have ih := adjacent_allB p d (b :: t)
    rw [show (a :: b :: t).zip (a :: b :: t).tail
        = (a, b) :: ((b :: t).zip (b :: t).tail) from rfl]
    rw [List.all_cons, Bool.and_eq_true, ih]
    constructor
    · rintro ⟨h1, h2⟩ j hj
      cases j with
      | zero => simpa using h1
      | succ j => simpa using h2 j (by simpa using hj)
    · intro h
      refine ⟨by simpa using h 0 (by simp), fun j hj => ?_⟩
      simpa using h (j + 1) (by simpa using Nat.succ_lt_succ hj)

theorem adjacent_anyB (p : α → α → Bool) (d : α) :
    ∀ (l : List α), ((l.zip l.tail).any fun q => p q.1 q.2) = true ↔
      ∃ j, j + 1 < l.length ∧ p (l.getD j d) (l.getD (j + 1) d) = true
  | [] => by simp
  | [a] => by simp
  | a :: b :: t => by
    have ih := adjacent_anyB p d (b :: t)
    rw [show (a :: b :: t).zip (a :: b :: t).tail
        = (a, b) :: ((b :: t).zip (b :: t).tail) from rfl]
    rw [List.any_cons, Bool.or_eq_true, ih]
    constructor
    · rintro (h | ⟨j, hj, hp⟩)
      · exact ⟨0, by simp, by simpa using h⟩
      · exact ⟨j + 1, by simpa using Nat.succ_lt_succ hj, by simpa using hp⟩
    · rintro ⟨j, hj, hp⟩
      cases j with
      | zero => exact Or.inl (by simpa using hp)
      | succ j => exact Or.inr ⟨j, by simpa using hj, by simpa using hp⟩

theorem strictIncB_iff (times : List ℚ) :
    strictIncB times = true ↔ TimesSorted times := by
  unfold strictIncB TimesSorted
  rw [adjacent_allB (fun a b => decide (a < b)) (0 : ℚ) times]
  constructor
  · intro h i hi
    simpa using h i (by omega)
  · intro h j hj
    simpa using h j (by omega)

theorem any_ne_false_iff (v : Int) (l : List Int) :
    (l.any (fun x => x != v) = false) ↔ ∀ j < l.length, l.getD j 0 = v := by
  rw [Bool.eq_false_iff, Ne, any_getD_iff _ (0 : Int)]
  push_neg
  constructor
  · intro h j hj
    simpa [bne_iff_ne] using h j hj
  · intro h j hj
    rw [h j hj]
    simp

theorem slice2_all_eq_iff (f : List Int) (v : Int) :
    ((sliceStep2 f).any (fun x => x != v) = false)
      ↔ ∀ j < f.length, j % 2 = 0 → f.getD j 0 = v := by
  rw [any_ne_false_iff]
  constructor
  · intro h j hj hpar
    have h2 : j / 2 < (sliceStep2 f).length := by
      rw [sliceStep2_length]; omega
    have hx := h (j / 2) h2
    rw [sliceStep2_getD] at hx
    have hj2 : 2 * (j / 2) = j := by omega
    rwa [hj2] at hx
  · intro h j hj
    rw [sliceStep2_getD]
    rw [sliceStep2_length] at hj
    exact h (2 * j) (by omega) (by omega)

theorem slice2_tail_all_eq_iff (f : List Int) (v : Int) :
    ((sliceStep2 f.tail).any (fun x => x != v) = false)
      ↔ ∀ j < f.length, j % 2 = 1 → f.getD j 0 = v := by
  rw [any_ne_false_iff]
  constructor
  · intro h j hj hpar
    have h2 : j / 2 < (sliceStep2 f.tail).length := by
      rw [sliceStep2_length, List.length_tail]; omega
    have hx := h (j / 2) h2
    rw [sliceStep2_getD, getD_tail] at hx
    have hj2 : 2 * (j / 2) + 1 = j := by omega
    rwa [hj2] at hx
  · intro h j hj
    rw [sliceStep2_getD, getD_tail]
    rw [sliceStep2_length, List.length_tail] at hj
    exact h (2 * j + 1) (by omega) (by omega)

theorem markers_iff (type_flags : List Int) :
    ((sliceStep2 (nonMiddleFlags type_flags)).any (fun f => f != FLAG_START)
      || (sliceStep2 (nonMiddleFlags type_flags).tail).any (fun f => f != FLAG_END)
      || ((nonMiddleFlags type_flags).length % 2 != 0)) = false
      ↔ MarkersAlternate type_flags := by
  rw [Bool.or_eq_false_iff, Bool.or_eq_false_iff]
  rw [slice2_all_eq_iff, slice2_tail_all_eq_iff, bne_eq_false_iff_eq]
  unfold MarkersAlternate
  constructor
  · rintro ⟨⟨h1, h2⟩, h3⟩
    exact ⟨fun j hj => ⟨h1 j hj, h2 j hj⟩, h3⟩
  · rintro ⟨h12, h3⟩
    exact ⟨⟨fun j hj hp => (h12 j hj).1 hp, fun j hj hp => (h12 j hj).2 hp⟩, h3⟩

theorem mem_nonzeroIdx (l : List Int) (v : Int) (i : Nat) :
    i ∈ nonzeroIdx l v ↔ i < l.length ∧ l.getD i 0 = v := by
  unfold nonzeroIdx
  simp

theorem ends_undef_iff (type_flags pass_flags : List Int) :
    (((nonzeroIdx type_flags FLAG_END).map (fun i => pass_flags.getD i 0)).any
      (fun f => f != FLAG_UNDEFINED)) = false
      ↔ EndsUndefined type_flags pass_flags := by
  rw [Bool.eq_false_iff, Ne, List.any_eq_true]
  push_neg
  unfold EndsUndefined
  constructor
  · intro h i hi hend
    have hm : pass_flags.getD i 0
        ∈ (nonzeroIdx type_flags FLAG_END).map (fun i => pass_flags.getD i 0) :=
      List.mem_map.mpr ⟨i, (mem_nonzeroIdx _ _ _).mpr ⟨hi, hend⟩, rfl⟩
    simpa [bne_iff_ne] using h _ hm
  · intro h x hx
    rcases List.mem_map.mp hx with ⟨i, hi, rfl⟩
    rcases (mem_nonzeroIdx _ _ _).mp hi with ⟨hb, he⟩
    rw [h i hb he]
    simp

theorem blockBad_true_iff (dirs : List Int) (s e : Nat) (he : e ≤ dirs.length) :
    blockBadB ((dirs.take e).drop s) = true
      ↔ (∃ i, s ≤ i ∧ i < e ∧ dirs.getD i 0 = FLAG_UNDEFINED)
        ∨ (∃ i, s ≤ i ∧ i + 1 < e ∧ dirs.getD i 0 = dirs.getD (i + 1) 0) := by
  have hlen : ((dirs.take e).drop s).length = e - s := by
    rw [List.length_drop, List.length_take]
    omega
  have hget : ∀ j, j < e - s → ((dirs.take e).drop s).getD j 0 = dirs.getD (s + j) 0 := by
    intro j hj
    rw [getD_drop, getD_take_of_lt]
    omega
  unfold blockBadB
  rw [Bool.or_eq_true, any_getD_iff _ (0 : Int), adjacent_anyB _ (0 : Int)]
  constructor
  · rintro (⟨j, hj, hp⟩ | ⟨j, hj, hp⟩)
    · rw [hlen] at hj
      rw [hget j hj] at hp
      exact Or.inl ⟨s + j, by omega, by omega, by simpa using hp⟩
    · rw [hlen] at hj
      rw [hget j (by omega), hget (j + 1) (by omega)] at hp
      refine Or.inr ⟨s + j, by omega, by omega, ?_⟩
      have hsj : s + (j + 1) = s + j + 1 := by omega
      rw [hsj] at hp
      simpa using hp
  · rintro (⟨i, hsi, hie, hu⟩ | ⟨i, hsi, hie, heq⟩)
    · refine Or.inl ⟨i - s, ?_, ?_⟩
      · rw [hlen]; omega
      · rw [hget (i - s) (by omega)]
        have hi : s + (i - s) = i := by omega
        rw [hi]
        simpa using hu
    · refine Or.inr ⟨i - s, ?_, ?_⟩
      · rw [hlen]; omega
      · rw [hget (i - s) (by omega), hget (i - s + 1) (by omega)]
        have hi : s + (i - s) = i := by omega
        have hi2 : s + (i - s + 1) = i + 1 := by omega
        rw [hi, hi2]
        simpa using heq

theorem blocks_check_iff (type_flags pass_flags : List Int)
    (hlen : type_flags.length = pass_flags.length) :
    (((nonzeroIdx type_flags FLAG_START).zip (nonzeroIdx type_flags FLAG_END)).any
      (fun q => blockBadB ((pass_flags.take q.2).drop q.1))) = false
      ↔ BlocksAlternate type_flags pass_flags := by
  rw [Bool.eq_false_iff, Ne, List.any_eq_true]
  push_neg
  unfold BlocksAlternate
  constructor
  · intro h q hq i hie hsi
    have he : q.2 ≤ pass_flags.length := by
      have h2 : q.2 ∈ nonzeroIdx type_flags FLAG_END := by
        rcases q with ⟨q1, q2⟩
        exact (List.of_mem_zip hq).2
      have := ((mem_nonzeroIdx _ _ _).mp h2).1
      omega
    have hb := h q hq
    have hnb : ¬((∃ i, q.1 ≤ i ∧ i < q.2 ∧ pass_flags.getD i 0 = FLAG_UNDEFINED)
        ∨ (∃ i, q.1 ≤ i ∧ i + 1 < q.2
            ∧ pass_flags.getD i 0 = pass_flags.getD (i + 1) 0)) :=
      fun hp => hb ((blockBad_true_iff _ _ _ he).mpr hp)
    push_neg at hnb
    constructor
    · intro hu
      exact absurd hu (hnb.1 i hsi hie)
    · intro hlt heq
      exact absurd heq.symm (hnb.2 i hsi hlt)
  · intro h q hq
    have he : q.2 ≤ pass_flags.length := by
      have h2 : q.2 ∈ nonzeroIdx type_flags FLAG_END := by
        rcases q with ⟨q1, q2⟩
        exact (List.of_mem_zip hq).2
      have := ((mem_nonzeroIdx _ _ _).mp h2).1
      omega
    intro hbad
    rw [blockBad_true_iff _ _ _ he] at hbad
    rcases hbad with ⟨i, hsi, hie, hu⟩ | ⟨i, hsi, hie, heq⟩
    · exact ((h q hq) i hie hsi).1 hu
    · exact ((h q hq) i (by omega) hsi).2 hie heq.symm

theorem concatenate_ne_nil (ls : List (List α)) (h : ls ≠ []) :
    concatenate ls = Except.ok ls.flatten := by
  cases ls with
  | nil => exact absurd rfl h
  | cons a t => rfl

theorem verify_eq_checks (acc : ExtremaAcc) (h1 : acc.times_list ≠ [])
    (h2 : acc.type_flags_list ≠ []) (h3 : acc.pass_flags_list ≠ []) :
    acc.verify = verifyChecks acc.times_list.flatten acc.type_flags_list.flatten
      acc.pass_flags_list.flatten := by
  unfold ExtremaAcc.verify
  rw [concatenate_ne_nil _ h1, concatenate_ne_nil _ h2, concatenate_ne_nil _ h3]
  rfl

theorem verifyChecks_cases (t : List ℚ) (k pf : List Int) :
    verifyChecks t k pf = Except.ok ()
      ∨ ∃ msg, verifyChecks t k pf = Except.error (PyError.dataIntegrityError msg) := by
  unfold verifyChecks
  split_ifs
  · exact Or.inr ⟨_, rfl⟩
  · exact Or.inr ⟨_, rfl⟩
  · exact Or.inr ⟨_, rfl⟩
  · exact Or.inr ⟨_, rfl⟩
  · exact Or.inl rfl

theorem verifyChecks_ok_iff (t : List ℚ) (k pf : List Int)
    (hlen : k.length = pf.length) :
    verifyChecks t k pf = Except.ok () ↔ VerifySpec t k pf := by
  unfold verifyChecks VerifySpec
  split_ifs with hc1 hc2 hc3 hc4
  · refine iff_of_false (by simp) ?_
    rintro ⟨hts, _, _, _⟩
    rw [← strictIncB_iff] at hts
    rw [hc1] at hts
    exact absurd hts (by simp)
  · refine iff_of_false (by simp) ?_
    rintro ⟨_, hma, _, _⟩
    rw [← markers_iff] at hma
    rw [hc2] at hma
    exact absurd hma (by simp)
  · refine iff_of_false (by simp) ?_
    rintro ⟨_, _, heu, _⟩
    rw [← ends_undef_iff] at heu
    rw [hc3] at heu
    exact absurd heu (by simp)
  · refine iff_of_false (by simp) ?_
    rintro ⟨_, _, _, hba⟩
    rw [← blocks_check_iff _ _ hlen] at hba
    rw [hc4] at hba
    exact absurd hba (by simp)
  · refine iff_of_true rfl ⟨?_, ?_, ?_, ?_⟩
    · exact (strictIncB_iff t).mp (by simpa using hc1)
    · exact (markers_iff k).mp (by simpa using hc2)
    · exact (ends_undef_iff k pf).mp (by simpa using hc3)
    · exact (blocks_check_iff k pf hlen).mp (by simpa using hc4)

/-- C5 (amended): on a non-empty accumulator with parallel flag arrays,
`verify` returns normally exactly when the materialized output satisfies:
strictly increasing timestamps; alternating, one-to-one paired non-`MIDDLE`
markers; `UNDEFINED` direction on every `END` point; and, within each paired
block, defined directions that alternate from the `START` marker's seeded
direction through the `MIDDLE` points.  When any of these fails, the raised
error is a `DataIntegrityError`. -/
theorem verify_ok_iff (acc : ExtremaAcc)
    (h1 : acc.times_list ≠ []) (h2 : acc.type_flags_list ≠ [])
    (h3 : acc.pass_flags_list ≠ [])
    (hlen : acc.type_flags_list.flatten.length = acc.pass_flags_list.flatten.length) :
    (acc.verify = Except.ok ()
        ↔ VerifySpec acc.times_list.flatten acc.type_flags_list.flatten
            acc.pass_flags_list.flatten)
      ∧ (acc.verify = Except.ok ()
          ∨ ∃ msg, acc.verify = Except.error (PyError.dataIntegrityError msg)) := by
  rw [verify_eq_checks acc h1 h2 h3]
  exact ⟨verifyChecks_ok_iff _ _ _ hlen, verifyChecks_cases _ _ _⟩

/-- Witness for C5 (amended) on the two-point accumulator
`START`(`ASCENDING`) at time 0, `END`(`UNDEFINED`) at time 1. -/
theorem verify_ok_iff_witness :
    ((⟨[[0], [1]], [[1], [-1]], [[1], [0]]⟩ : ExtremaAcc).times_list ≠ []
        ∧ (⟨[[0], [1]], [[1], [-1]], [[1], [0]]⟩ : ExtremaAcc).type_flags_list ≠ []
        ∧ (⟨[[0], [1]], [[1], [-1]], [[1], [0]]⟩ : ExtremaAcc).pass_flags_list ≠ []
        ∧ (⟨[[0], [1]], [[1], [-1]], [[1], [0]]⟩ : ExtremaAcc).type_flags_list.flatten.length
            = (⟨[[0], [1]], [[1], [-1]], [[1], [0]]⟩ : ExtremaAcc).pass_flags_list.flatten.length)
      ∧ (((⟨[[0], [1]], [[1], [-1]], [[1], [0]]⟩ : ExtremaAcc).verify = Except.ok ()
          ↔ VerifySpec
              (⟨[[0], [1]], [[1], [-1]], [[1], [0]]⟩ : ExtremaAcc).times_list.flatten
              (⟨[[0], [1]], [[1], [-1]], [[1], [0]]⟩ : ExtremaAcc).type_flags_list.flatten
              (⟨[[0], [1]], [[1], [-1]], [[1], [0]]⟩ : ExtremaAcc).pass_flags_list.flatten)
        ∧ ((⟨[[0], [1]], [[1], [-1]], [[1], [0]]⟩ : ExtremaAcc).verify = Except.ok ()
            ∨ ∃ msg, (⟨[[0], [1]], [[1], [-1]], [[1], [0]]⟩ : ExtremaAcc).verify
                = Except.error (PyError.dataIntegrityError msg))) :=
  ⟨⟨by simp, by simp, by simp, by simp⟩,
    verify_ok_iff ⟨[[0], [1]], [[1], [-1]], [[1], [0]]⟩ (by simp) (by simp) (by simp)
      (by simp)⟩

end OrbitDir
